import Mathlib

/-!
# Schema generation (`schema/json/generate.go`)

A shallow embedding of `main` from `schema/json/generate.go`.

* The two reflected schemas are inputs: `jsonschema.Reflect` is a library call.  The
  placeholder's `Definitions` map is given by the sequence of entries that `range` yields
  (each key once, in an arbitrary order); the document's `Definitions` map is a function
  from names to definitions, `none` where the map has no entry.  Every name of a reflected
  map points to a `Type` of its own, so setting a property of one definition changes no
  other entry.
* Go strings are Lean strings; comparison and suffix tests work on the character list,
  which agrees with the byte-wise comparison of Go on valid UTF-8.
* The file system is a function from paths to file contents.  Each system call can fail
  independently; the failures of one run are chosen by a `Faults` record.
* A run ends with `Except.ok code` (the process exit code, `0` when `main` returns) or
  with `Except.error` (a Go panic).
-/

namespace Generate

/-! ## Data model -/

/-- A Go `map[string]string` literal, as its list of entries. -/
abbrev StringMap := List (String × String)

/-- A value stored in the ordered property map of a `jsonschema.Type` (an `interface{}`):
either a schema put there by `jsonschema.Reflect`, kept abstract, or the value of type
`map[string][]map[string]string` that `main` stores. -/
inductive PropValue (α : Type) where
  | reflected (t : α)
  | union (m : List (String × List StringMap))
  deriving DecidableEq, Repr

/-- The `*orderedmap.OrderedMap` of properties: keys in insertion order with their values. -/
abbrev OrderedMap (α : Type) := List (String × PropValue α)

/-- `OrderedMap.Set`: overwrite the value of an existing key in place, append a new key. -/
def OrderedMap.Set {α : Type} (o : OrderedMap α) (key : String) (value : PropValue α) :
    OrderedMap α :=
  if o.any (fun e => e.1 == key) then
    o.map (fun e => if e.1 = key then (key, value) else e)
  else
    o ++ [(key, value)]

/-- `OrderedMap.Get`: the value stored under a key. -/
def OrderedMap.Get {α : Type} (o : OrderedMap α) (key : String) : Option (PropValue α) :=
  o.lookup key

/-- A `jsonschema.Type`: its `Properties` pointer (`none` is the nil pointer) and the
remaining fields, which `main` never touches. -/
structure SchemaType (α : Type) where
  Properties : Option (OrderedMap α)
  rest : α
  deriving DecidableEq, Repr

/-- A `jsonschema.Definitions`, the Go type `map[string]*Type`. -/
abbrev Definitions (α : Type) := String → Option (SchemaType α)

/-- Go map assignment `m[name] = definition`. -/
def Definitions.set {α : Type} (m : Definitions α) (name : String)
    (definition : SchemaType α) : Definitions α :=
  fun k => if k = name then some definition else m k

/-- A `jsonschema.Schema`: the embedded root type and the `Definitions` map. -/
structure Schema (α : Type) where
  root : α
  Definitions : Definitions α

/-- The entries of a `Definitions` map in the order a `range` loop visits them. -/
abbrev MapRange (α : Type) := List (String × SchemaType α)

/-- The keys visited by a `range` loop. -/
def MapRange.keys {α : Type} (es : MapRange α) : List String := es.map Prod.fst

/-- `strings.HasSuffix`: `len(s) >= len(suffix) && s[len(s)-len(suffix):] == suffix`. -/
def HasSuffix (s suffix : String) : Bool :=
  decide (s.data.length ≥ suffix.data.length) &&
    decide (s.data.drop (s.data.length - suffix.data.length) = suffix.data)

/-- `sort.Strings`: sorts in increasing order of Go's string comparison.  A list has one
sorted arrangement, so the sorting algorithm does not matter; here it is insertion sort. -/
def sortStrings (l : List String) : List String :=
  l.insertionSort (fun a b => a.data ≤ b.data)

/-! ## `main`, lines 47-75: merging the definitions and rewriting `Package.metadata` -/

/-- One iteration of the loop at lines 48-57, on the pair
`(documentSchema.Definitions, metadataNames)`. -/
def mergeStep {α : Type} (st : Definitions α × List String) (e : String × SchemaType α) :
    Definitions α × List String :=
  if e.1 = "metadataContainer" then
    st
  else
    let defs := st.1.set e.1 e.2
    if HasSuffix e.1 "Metadata" then (defs, st.2 ++ [e.1]) else (defs, st.2)

/-- The loop at lines 47-57: `metadataNames` starts empty. -/
def mergeLoop {α : Type} (documentDefinitions : Definitions α) (metadataSchema : MapRange α) :
    Definitions α × List String :=
  metadataSchema.foldl mergeStep (documentDefinitions, [])

/-- The alternative `{"type": "null"}` of line 64. -/
def nullAlternative : StringMap := [("type", "null")]

/-- The alternative `{"$ref": fmt.Sprintf("#/definitions/%s", name)}` of lines 67-69. -/
def refAlternative (name : String) : StringMap := [("$ref", "#/definitions/" ++ name)]

/-- Lines 62-70: `metadataTypes` starts with the null alternative and gets one reference
appended per name. -/
def metadataTypes (metadataNames : List String) : List StringMap :=
  metadataNames.foldl (fun acc name => acc ++ [refAlternative name]) [nullAlternative]

/-- The list stored under `"anyOf"`: the value of `metadataTypes` after lines 47-70. -/
def anyOf {α : Type} (documentDefinitions : Definitions α) (metadataSchema : MapRange α) :
    List StringMap :=
  metadataTypes (sortStrings (mergeLoop documentDefinitions metadataSchema).2)

/-- The ways a run can panic. -/
inductive Fatal where
  | nilDereference
  | encode
  | openFile
  | readFile
  | createFile
  | writeFile
  deriving DecidableEq, Repr

/-- Lines 47-75: merge, sort, build the alternatives and set `"metadata"` on the
properties of `Definitions["Package"]`.  A missing `"Package"` entry yields a nil `*Type`,
whose field access panics; so does `Set` on a nil `Properties`. -/
def assemble {α : Type} (documentSchema : Schema α) (metadataSchema : MapRange α) :
    Except Fatal (Schema α) :=
  let merged := mergeLoop documentSchema.Definitions metadataSchema
  let types := anyOf documentSchema.Definitions metadataSchema
  match merged.1 "Package" with
  | none => .error .nilDereference
  | some package =>
    match package.Properties with
    | none => .error .nilDereference
    | some properties =>
      .ok ⟨documentSchema.root,
        merged.1.set "Package"
          ⟨some (properties.Set "metadata" (.union [("anyOf", types)])), package.rest⟩⟩

/-! ## `main`, lines 77-125: encoding and reconciling with the file on disk -/

/-- The content of a file. -/
abbrev Bytes := List UInt8

/-- The file system: the content of the file at each path, `none` where there is none. -/
abbrev FileSystem := String → Option Bytes

/-- The system calls of a run that fail.  `statErr`: `os.Stat` fails with an error other
than "not exist"; `writeErr = some n`: `Write` fails after writing `n` bytes. -/
structure Faults where
  statErr : Bool
  openErr : Bool
  readErr : Bool
  createErr : Bool
  writeErr : Option Nat
  deriving DecidableEq, Repr

/-- No system call fails. -/
def noFaults : Faults := ⟨false, false, false, false, none⟩

/-- The system calls performed by a run, in order. -/
inductive SysCall where
  | stat (name : String)
  | openFile (name : String)
  | readAll (name : String)
  | create (name : String)
  | write (name : String) (data : Bytes)
  deriving DecidableEq, Repr

/-- Whether a system call creates or modifies a file. -/
def SysCall.writes : SysCall → Bool
  | .create _ => true
  | .write _ _ => true
  | _ => false

/-- The error of `os.Stat`, as far as `main` looks at it. -/
inductive StatResult where
  | found
  | notExist
  | otherError
  deriving DecidableEq, Repr

/-- `os.Stat(name)`. -/
def Stat (faults : Faults) (fs : FileSystem) (name : String) : StatResult :=
  if faults.statErr then .otherError
  else match fs name with
    | some _ => .found
    | none => .notExist

/-- `os.Open(name)` followed by nothing else: the content the handle will read, or an error. -/
def Open (faults : Faults) (fs : FileSystem) (name : String) : Option Bytes :=
  if faults.openErr then none else fs name

/-- `ioutil.ReadAll` on a handle opened on the given content. -/
def ReadAll (faults : Faults) (content : Bytes) : Option Bytes :=
  if faults.readErr then none else some content

/-- `os.Create(name)`: creates the file or truncates it; the new state, or an error. -/
def Create (faults : Faults) (fs : FileSystem) (name : String) : Option FileSystem :=
  if faults.createErr then none
  else some (fun p => if p = name then some [] else fs p)

/-- `fh.Write(data)` on the handle of `name`: appends the data, or only its first `n` bytes
when the write fails.  The flag tells whether the write succeeded. -/
def Write (faults : Faults) (fs : FileSystem) (name : String) (data : Bytes) :
    Bool × FileSystem :=
  let old := (fs name).getD []
  match faults.writeErr with
  | none => (true, fun p => if p = name then some (old ++ data) else fs p)
  | some n => (false, fun p => if p = name then some (old ++ data.take n) else fs p)

/-- What a run leaves behind: how it ended, the file system, the system calls it made. -/
structure Run where
  result : Except Fatal Nat
  fs : FileSystem
  calls : List SysCall

/-- Line 77: `fmt.Sprintf("schema-%s.json", internal.JSONSchemaVersion)`. -/
def filename (JSONSchemaVersion : String) : String :=
  "schema-" ++ JSONSchemaVersion ++ ".json"

/-- Lines 89-125: the reconcile step, on the target path and the generated buffer. -/
def reconcile (faults : Faults) (name : String) (newSchemaBuffer : Bytes) (fs : FileSystem) :
    Run :=
  match Stat faults fs name with
  | .notExist =>
    match Create faults fs name with
    | none => ⟨.error .createFile, fs, [.stat name, .create name]⟩
    | some created =>
      match Write faults created name newSchemaBuffer with
      | (false, written) =>
        ⟨.error .writeFile, written, [.stat name, .create name, .write name newSchemaBuffer]⟩
      | (true, written) =>
        ⟨.ok 0, written, [.stat name, .create name, .write name newSchemaBuffer]⟩
  | _ =>
    match Open faults fs name with
    | none => ⟨.error .openFile, fs, [.stat name, .openFile name]⟩
    | some content =>
      match ReadAll faults content with
      | none => ⟨.error .readFile, fs, [.stat name, .openFile name, .readAll name]⟩
      | some existingSchemaBytes =>
        if existingSchemaBytes = newSchemaBuffer then
          ⟨.ok 0, fs, [.stat name, .openFile name, .readAll name]⟩
        else
          ⟨.ok 1, fs, [.stat name, .openFile name, .readAll name]⟩

/-- The whole of `main`.  The reflected schemas, the version constant and the JSON encoder
(`none` when `Encode` returns an error) are inputs. -/
def main {α : Type} (JSONSchemaVersion : String) (encode : Schema α → Option Bytes)
    (faults : Faults) (metadataSchema : MapRange α) (documentSchema : Schema α)
    (fs : FileSystem) : Run :=
  match assemble documentSchema metadataSchema with
  | .error e => ⟨.error e, fs, []⟩
  | .ok assembled =>
    match encode assembled with
    | none => ⟨.error .encode, fs, []⟩
    | some newSchemaBuffer => reconcile faults (filename JSONSchemaVersion) newSchemaBuffer fs

/-! ## Selection and order of names -/

/-- The names the loop selects: not the placeholder itself, and ending with `Metadata`. -/
def selected (name : String) : Bool :=
  decide (name ≠ "metadataContainer") && HasSuffix name "Metadata"

/-- The order of `sort.Strings`, on Lean strings. -/
def strLE (a b : String) : Prop := a.data ≤ b.data

instance strLE_decidable : DecidableRel strLE := fun a b =>
  inferInstanceAs (Decidable (a.data ≤ b.data))

instance strLE_total : IsTotal String strLE := ⟨fun a b => le_total a.data b.data⟩

instance strLE_trans : IsTrans String strLE :=
  ⟨fun a b c (h1 : a.data ≤ b.data) (h2 : b.data ≤ c.data) => le_trans h1 h2⟩

instance strLE_antisymm : IsAntisymm String strLE :=
  ⟨fun a b (h1 : a.data ≤ b.data) (h2 : b.data ≤ a.data) => String.ext (le_antisymm h1 h2)⟩

/-! ## Concrete inputs -/

/-- A reflected struct with no properties. -/
def emptyStruct : SchemaType Unit := ⟨some [], ()⟩

/-- A root document with a `Package` definition whose `metadata` property is unconstrained. -/
def exampleDocument : Schema Unit :=
  ⟨(), fun k =>
    if k = "Package" then some ⟨some [("name", .reflected ()), ("metadata", .reflected ())], ()⟩
    else if k = "Document" then some emptyStruct
    else none⟩

/-- The placeholder's definitions for two variants, one of them with a nested shape, in
some iteration order. -/
def exampleMetadata : MapRange Unit :=
  [("BetaMetadata", emptyStruct), ("metadataContainer", emptyStruct),
   ("AlphaFileRecord", emptyStruct), ("AlphaMetadata", emptyStruct)]

/-- The same definitions in another iteration order. -/
def exampleMetadataReordered : MapRange Unit :=
  [("AlphaMetadata", emptyStruct), ("AlphaFileRecord", emptyStruct),
   ("BetaMetadata", emptyStruct), ("metadataContainer", emptyStruct)]

/-- The names of the shapes listed by the fields of `metadataContainer`, lines 29-35. -/
def metadataContainerShapes : List String :=
  ["ApkMetadata", "DpkgMetadata", "GemMetadata", "JavaMetadata", "NpmPackageJSONMetadata",
   "PythonPackageMetadata", "RpmdbMetadata"]

/-- A registry of two shapes, one of them not named after the convention. -/
def exampleRegistry : List String := ["AlphaMetadata", "Beta"]

/-- The placeholder's definitions for `exampleRegistry`. -/
def exampleRegistryMetadata : MapRange Unit :=
  [("metadataContainer", emptyStruct), ("AlphaMetadata", emptyStruct), ("Beta", emptyStruct)]

/-- The placeholder's definitions with a `Package` entry that collides with the
document's. -/
def collidingMetadata : MapRange Unit :=
  [("metadataContainer", emptyStruct), ("Package", emptyStruct), ("Other", emptyStruct)]

/-- A file system with one unrelated file. -/
def emptyDisk : FileSystem := fun p => if p = "README.md" then some [35, 32] else none

/-- A file system holding a stale artifact next to the unrelated file. -/
def staleDisk : FileSystem :=
  fun p => if p = "schema-1.0.0.json" then some [123, 125, 10]
    else if p = "README.md" then some [35, 32] else none

/-- A root document without a `Package` definition. -/
def driftedDocument : Schema Unit :=
  ⟨(), fun k => if k = "Document" then some emptyStruct else none⟩

/-! ## Auxiliary facts -/

theorem foldl_mergeStep_snd {α : Type} (es : MapRange α) (D : Definitions α)
    (acc : List String) :
    (es.foldl mergeStep (D, acc)).2 = acc ++ es.keys.filter selected := by
  induction es generalizing D acc with
  | nil => simp [MapRange.keys]
  | cons e es ih =>
    rw [List.foldl_cons]
    by_cases h1 : e.1 = "metadataContainer"
    · have hs : mergeStep (D, acc) e = (D, acc) := by simp [mergeStep, h1]
      rw [hs, ih]
      simp [MapRange.keys, selected, h1]
    · by_cases h2 : HasSuffix e.1 "Metadata" = true
      · have hs : mergeStep (D, acc) e = (D.set e.1 e.2, acc ++ [e.1]) := by
          simp [mergeStep, h1, h2]
        rw [hs, ih]
        simp [MapRange.keys, selected, h1, h2]
      · have hs : mergeStep (D, acc) e = (D.set e.1 e.2, acc) := by
          simp [mergeStep, h1, h2]
        rw [hs, ih]
        simp [MapRange.keys, selected, h1, h2]

theorem mergeLoop_snd {α : Type} (D : Definitions α) (es : MapRange α) :
    (mergeLoop D es).2 = es.keys.filter selected := by
  simp [mergeLoop, foldl_mergeStep_snd]

theorem mergeStep_fst {α : Type} (D : Definitions α) (acc : List String)
    (e : String × SchemaType α) :
    (mergeStep (D, acc) e).1 = if e.1 = "metadataContainer" then D else D.set e.1 e.2 := by
  unfold mergeStep
  by_cases h1 : e.1 = "metadataContainer"
  · simp [h1]
  · by_cases h2 : HasSuffix e.1 "Metadata" = true <;> simp [h1, h2]

theorem foldl_mergeStep_fst {α : Type} (es : MapRange α) (hnd : es.keys.Nodup)
    (st : Definitions α × List String) (k : String) :
    (es.foldl mergeStep st).1 k =
      if k ∈ es.keys ∧ k ≠ "metadataContainer" then es.lookup k else st.1 k := by
  induction es generalizing st with
  | nil => simp [MapRange.keys]
  | cons e es ih =>
    obtain ⟨n, t⟩ := e
    obtain ⟨D, acc⟩ := st
    simp only [MapRange.keys, List.map_cons, List.nodup_cons] at hnd ih ⊢
    obtain ⟨hn, hnd⟩ := hnd
    rw [List.foldl_cons, ih hnd, mergeStep_fst]
    by_cases hk : k = n
    · subst hk
      by_cases h1 : k = "metadataContainer"
      · simp [h1]
      · simp [h1, hn, Definitions.set, List.lookup]
    · have hk3 : (k == n) = false := by simpa using hk
      by_cases hm : k ∈ List.map Prod.fst es
      · by_cases h1 : n = "metadataContainer"
        · subst h1
          simp [hk, hm, List.lookup, hk3]
        · simp [hk, hm, List.lookup, hk3, h1, Definitions.set]
      · by_cases h1 : n = "metadataContainer"
        · simp [hk, hm, h1]
        · simp [hk, hm, h1, Definitions.set]

theorem metadataTypes_foldl (names : List String) (acc : List StringMap) :
    names.foldl (fun acc name => acc ++ [refAlternative name]) acc =
      acc ++ names.map refAlternative := by
  induction names generalizing acc with
  | nil => simp
  | cons n names ih => simp [ih]

theorem metadataTypes_eq (names : List String) :
    metadataTypes names = nullAlternative :: names.map refAlternative := by
  simp [metadataTypes, metadataTypes_foldl]

theorem mergeLoop_fst {α : Type} (D : Definitions α) (es : MapRange α) (hnd : es.keys.Nodup)
    (k : String) :
    (mergeLoop D es).1 k =
      if k ∈ es.keys ∧ k ≠ "metadataContainer" then es.lookup k else D k :=
  foldl_mergeStep_fst es hnd (D, []) k

theorem lookup_eq_some_iff_mem {α : Type} (es : MapRange α) (hnd : es.keys.Nodup)
    (k : String) (v : SchemaType α) : es.lookup k = some v ↔ (k, v) ∈ es := by
  induction es with
  | nil => simp
  | cons e es ih =>
    obtain ⟨n, t⟩ := e
    simp only [MapRange.keys, List.map_cons, List.nodup_cons] at hnd ih
    obtain ⟨hn, hnd⟩ := hnd
    by_cases hk : k = n
    · subst hk
      have hno : (k, v) ∉ es := fun hmem => hn (List.mem_map_of_mem Prod.fst hmem)
      simp [hno, eq_comm]
    · have hk3 : (k == n) = false := by simpa using hk
      simp [List.lookup, hk3, hk, ih hnd]

theorem lookup_perm {α : Type} (es1 es2 : MapRange α) (hnd : es1.keys.Nodup)
    (hperm : es1.Perm es2) (k : String) : es1.lookup k = es2.lookup k := by
  have hnd2 : es2.keys.Nodup := (hperm.map Prod.fst).nodup_iff.mp hnd
  apply Option.ext
  intro v
  rw [Option.mem_def, Option.mem_def, lookup_eq_some_iff_mem es1 hnd,
    lookup_eq_some_iff_mem es2 hnd2]
  exact hperm.mem_iff

theorem sortStrings_eq (l : List String) : sortStrings l = l.insertionSort strLE := rfl

theorem sortStrings_perm (l : List String) : (sortStrings l).Perm l := by
  rw [sortStrings_eq]
  exact List.perm_insertionSort strLE l

theorem sortStrings_sorted (l : List String) : (sortStrings l).Sorted strLE := by
  rw [sortStrings_eq]
  exact List.sorted_insertionSort strLE l

theorem sortStrings_eq_of_perm {l1 l2 : List String} (h : l1.Perm l2) :
    sortStrings l1 = sortStrings l2 :=
  List.eq_of_perm_of_sorted
    (((sortStrings_perm l1).trans h).trans (sortStrings_perm l2).symm)
    (sortStrings_sorted l1) (sortStrings_sorted l2)

theorem sortStrings_sorted_lt (l : List String) (hnd : l.Nodup) :
    (sortStrings l).Sorted (fun a b => a < b) := by
  have hnd2 : (sortStrings l).Nodup := (sortStrings_perm l).nodup_iff.mpr hnd
  have hs := sortStrings_sorted l
  unfold List.Sorted at hs ⊢
  unfold List.Nodup at hnd2
  refine (hs.and hnd2).imp ?_
  intro a b hab
  obtain ⟨hle, hne⟩ := hab
  rw [String.lt_iff_toList_lt]
  have hle2 : a.data ≤ b.data := hle
  exact lt_of_le_of_ne hle2 (fun h => hne (String.ext h))

theorem OrderedMap.Get_Set {α : Type} (o : OrderedMap α) (key : String) (value : PropValue α) :
    (o.Set key value).Get key = some value := by
  unfold OrderedMap.Set OrderedMap.Get
  induction o with
  | nil => simp [List.lookup]
  | cons e o ih =>
    obtain ⟨n, v⟩ := e
    by_cases hk : n = key
    · subst hk
      simp [List.lookup]
    · have hk2 : (key == n) = false := by simpa using (fun h => hk (Eq.symm h))
      by_cases hany : (o.any (fun e => e.1 == key)) = true
      · simp only [hany, if_true] at ih
        simp [List.lookup, hk, hk2, hany, ih]
      · simp only [hany] at ih
        simp [List.lookup, hk, hk2, hany]
        simpa using ih

theorem mergeLoop_container {α : Type} (es : MapRange α) (st : Definitions α × List String)
    (h : st.1 "metadataContainer" = none) :
    (es.foldl mergeStep st).1 "metadataContainer" = none := by
  induction es generalizing st with
  | nil => simpa using h
  | cons e es ih =>
    rw [List.foldl_cons]
    apply ih
    obtain ⟨D, acc⟩ := st
    rw [mergeStep_fst]
    by_cases h1 : e.1 = "metadataContainer"
    · simpa [h1] using h
    · have h2 : ¬ "metadataContainer" = e.1 := fun hh => h1 hh.symm
      simpa [h1, h2, Definitions.set] using h

theorem assemble_ok {α : Type} (documentSchema : Schema α) (metadataSchema : MapRange α)
    (package : SchemaType α) (properties : OrderedMap α)
    (hp : (mergeLoop documentSchema.Definitions metadataSchema).1 "Package" = some package)
    (hprops : package.Properties = some properties) :
    assemble documentSchema metadataSchema =
      .ok ⟨documentSchema.root,
        (mergeLoop documentSchema.Definitions metadataSchema).1.set "Package"
          ⟨some (properties.Set "metadata"
            (.union [("anyOf", anyOf documentSchema.Definitions metadataSchema)])),
            package.rest⟩⟩ := by
  simp only [assemble, hp, hprops]

theorem assemble_definitions {α : Type} (documentSchema assembled : Schema α)
    (metadataSchema : MapRange α)
    (h : assemble documentSchema metadataSchema = .ok assembled) :
    ∃ package properties,
      (mergeLoop documentSchema.Definitions metadataSchema).1 "Package" = some package ∧
      package.Properties = some properties ∧
      assembled.Definitions =
        (mergeLoop documentSchema.Definitions metadataSchema).1.set "Package"
          ⟨some (properties.Set "metadata"
            (.union [("anyOf", anyOf documentSchema.Definitions metadataSchema)])),
            package.rest⟩ := by
  unfold assemble at h
  cases hp : (mergeLoop documentSchema.Definitions metadataSchema).1 "Package" with
  | none => simp [hp] at h
  | some package =>
    cases hprops : package.Properties with
    | none => simp [hp, hprops] at h
    | some properties =>
      simp only [hp, hprops, Except.ok.injEq] at h
      exact ⟨package, properties, rfl, hprops, by rw [← h]⟩

theorem selected_iff (k : String) :
    selected k = true ↔ k ≠ "metadataContainer" ∧ HasSuffix k "Metadata" = true := by
  simp [selected]

theorem mem_sorted_names {α : Type} (es : MapRange α) (k : String) :
    k ∈ sortStrings (es.keys.filter selected) ↔
      k ∈ es.keys ∧ k ≠ "metadataContainer" ∧ HasSuffix k "Metadata" = true := by
  rw [(sortStrings_perm _).mem_iff, List.mem_filter, selected_iff]

theorem anyOf_eq {α : Type} (D : Definitions α) (es : MapRange α) :
    anyOf D es = nullAlternative :: (sortStrings (es.keys.filter selected)).map refAlternative := by
  rw [anyOf, mergeLoop_snd, metadataTypes_eq]

theorem metadataContainerShapes_selected :
    metadataContainerShapes.Nodup ∧ ∀ name ∈ metadataContainerShapes, selected name = true := by
  decide

theorem exampleMetadata_anyOf :
    anyOf exampleDocument.Definitions exampleMetadata =
      [[("type", "null")], [("$ref", "#/definitions/AlphaMetadata")],
       [("$ref", "#/definitions/BetaMetadata")]] := by
  decide

theorem exampleMetadata_assemble :
    (assemble exampleDocument exampleMetadata).toOption.map
        (fun d => (d.Definitions "Package", d.Definitions "metadataContainer",
          d.Definitions "AlphaFileRecord")) =
      some (some ⟨some [("name", .reflected ()), ("metadata", .union [("anyOf",
          [[("type", "null")], [("$ref", "#/definitions/AlphaMetadata")],
           [("$ref", "#/definitions/BetaMetadata")]])])], ()⟩, none, some emptyStruct) := by
  decide

/-! ## The union set on `Package.metadata` -/

/-- C1: for every placeholder definitions map (any iteration order of its entries), the
`anyOf` list is the null alternative followed by one reference per key that is not
`metadataContainer` and ends with `Metadata`, these keys in strictly ascending order
(so each exactly once); whenever the merged map has a `Package` definition with
properties, the run gets past the rewrite and the `metadata` property of `Package` holds
exactly that list; with no selected key the list is the single null alternative. -/
theorem anyOf_is_null_then_sorted_refs {α : Type} (D : Definitions α) (es : MapRange α)
    (hnd : es.keys.Nodup) :
    ∃ names : List String,
      names.Sorted (fun a b => a < b) ∧
      (∀ k, k ∈ names ↔
        k ∈ es.keys ∧ k ≠ "metadataContainer" ∧ HasSuffix k "Metadata" = true) ∧
      anyOf D es = nullAlternative :: names.map refAlternative ∧
      (names = [] → anyOf D es = [nullAlternative]) ∧
      ∀ (root : α) (package : SchemaType α) (properties : OrderedMap α),
        (mergeLoop D es).1 "Package" = some package →
        package.Properties = some properties →
        ∃ assembled pkg props,
          assemble ⟨root, D⟩ es = .ok assembled ∧
          assembled.Definitions "Package" = some pkg ∧
          pkg.Properties = some props ∧
          props.Get "metadata" =
            some (.union [("anyOf", nullAlternative :: names.map refAlternative)]) := by
  refine ⟨sortStrings (es.keys.filter selected), ?_, ?_, anyOf_eq D es, ?_, ?_⟩
  · exact sortStrings_sorted_lt _ (hnd.filter _)
  · exact mem_sorted_names es
  · intro h
    rw [anyOf_eq, h]
    rfl
  · intro root package properties hp hprops
    refine ⟨_, ⟨some (properties.Set "metadata" (.union [("anyOf", anyOf D es)])),
      package.rest⟩, properties.Set "metadata" (.union [("anyOf", anyOf D es)]),
      assemble_ok ⟨root, D⟩ es package properties hp hprops, ?_, rfl, ?_⟩
    · simp [Definitions.set]
    · rw [OrderedMap.Get_Set, anyOf_eq]

/-- Witness for C1 on the example definitions. -/
theorem anyOf_is_null_then_sorted_refs_witness :
    exampleMetadata.keys.Nodup ∧
    ∃ names : List String,
      names.Sorted (fun a b => a < b) ∧
      (∀ k, k ∈ names ↔
        k ∈ exampleMetadata.keys ∧ k ≠ "metadataContainer" ∧
          HasSuffix k "Metadata" = true) ∧
      anyOf exampleDocument.Definitions exampleMetadata =
        nullAlternative :: names.map refAlternative ∧
      (names = [] → anyOf exampleDocument.Definitions exampleMetadata = [nullAlternative]) ∧
      ∀ (root : Unit) (package : SchemaType Unit) (properties : OrderedMap Unit),
        (mergeLoop exampleDocument.Definitions exampleMetadata).1 "Package" = some package →
        package.Properties = some properties →
        ∃ assembled pkg props,
          assemble ⟨root, exampleDocument.Definitions⟩ exampleMetadata = .ok assembled ∧
          assembled.Definitions "Package" = some pkg ∧
          pkg.Properties = some props ∧
          props.Get "metadata" =
            some (.union [("anyOf", nullAlternative :: names.map refAlternative)]) :=
  ⟨by decide,
    anyOf_is_null_then_sorted_refs exampleDocument.Definitions exampleMetadata (by decide)⟩

/-- C2 as stated fails: the registry `AlphaMetadata`, `Beta` has two shapes, both among the
reflected definitions, yet the union has two alternatives, not three, and is not the null
alternative followed by the references to the sorted registry. -/
theorem registry_union_counterexample :
    exampleRegistry.Nodup ∧ exampleRegistryMetadata.keys.Nodup ∧
    (∀ r ∈ exampleRegistry, r ∈ exampleRegistryMetadata.keys) ∧
    anyOf exampleDocument.Definitions exampleRegistryMetadata =
      [[("type", "null")], [("$ref", "#/definitions/AlphaMetadata")]] ∧
    (anyOf exampleDocument.Definitions exampleRegistryMetadata).length ≠
      exampleRegistry.length + 1 ∧
    anyOf exampleDocument.Definitions exampleRegistryMetadata ≠
      nullAlternative :: (sortStrings exampleRegistry).map refAlternative := by
  decide

/-- C2, amended: when the registry's names are exactly the keys of the placeholder's
definitions, other than `metadataContainer`, that end with `Metadata`, the union has
`n + 1` alternatives: the null alternative, then the references to the registry's shapes
in strictly ascending order of name. -/
theorem registry_union_of_convention {α : Type} (D : Definitions α) (es : MapRange α)
    (registry : List String) (hreg : registry.Nodup) (hnd : es.keys.Nodup)
    (hconv : ∀ k, k ∈ registry ↔
      k ∈ es.keys ∧ k ≠ "metadataContainer" ∧ HasSuffix k "Metadata" = true) :
    anyOf D es = nullAlternative :: (sortStrings registry).map refAlternative ∧
    (anyOf D es).length = registry.length + 1 ∧
    (sortStrings registry).Sorted (fun a b => a < b) ∧
    (sortStrings registry).Perm registry := by
  have hperm : (es.keys.filter selected).Perm registry := by
    rw [List.perm_ext_iff_of_nodup (hnd.filter _) hreg]
    intro k
    rw [hconv k, List.mem_filter, selected_iff]
  have heq : anyOf D es = nullAlternative :: (sortStrings registry).map refAlternative := by
    rw [anyOf_eq, sortStrings_eq_of_perm hperm]
  refine ⟨heq, ?_, sortStrings_sorted_lt registry hreg, sortStrings_perm registry⟩
  rw [heq, List.length_cons, List.length_map, (sortStrings_perm registry).length_eq]

/-- Witness for the amended C2: the registry `BetaMetadata`, `AlphaMetadata`. -/
theorem registry_union_of_convention_witness :
    ["BetaMetadata", "AlphaMetadata"].Nodup ∧ exampleMetadata.keys.Nodup ∧
    anyOf exampleDocument.Definitions exampleMetadata =
      nullAlternative :: (sortStrings ["BetaMetadata", "AlphaMetadata"]).map refAlternative ∧
    (anyOf exampleDocument.Definitions exampleMetadata).length =
      ["BetaMetadata", "AlphaMetadata"].length + 1 ∧
    (sortStrings ["BetaMetadata", "AlphaMetadata"]).Sorted (fun a b => a < b) ∧
    (sortStrings ["BetaMetadata", "AlphaMetadata"]).Perm ["BetaMetadata", "AlphaMetadata"] :=
  ⟨by decide, by decide,
    registry_union_of_convention exampleDocument.Definitions exampleMetadata
      ["BetaMetadata", "AlphaMetadata"] (by decide) (by decide) (by
        intro k
        constructor
        · intro hk
          simp only [List.mem_cons, List.mem_singleton, List.not_mem_nil, or_false] at hk
          rcases hk with rfl | rfl <;> decide
        · rintro ⟨hk, hne, hsuf⟩
          simp only [MapRange.keys, exampleMetadata, List.map_cons, List.map_nil,
            List.mem_cons, List.not_mem_nil, or_false] at hk
          rcases hk with rfl | rfl | rfl | rfl
          · decide
          · exact absurd rfl hne
          · exact absurd hsuf (by decide)
          · decide)⟩

/-! ## The merged `Definitions` map -/

/-- C10: the loop computes a right-biased union.  After the loop, the document's map holds
at `k` the placeholder's definition of `k` when `k` is one of its keys other than
`metadataContainer` (whatever the suffix of `k`, and whatever the document held at `k`),
and otherwise exactly what the document held before: its definition of `k`, or none. -/
theorem merge_is_right_biased_union {α : Type} (D : Definitions α) (M : MapRange α)
    (hnd : M.keys.Nodup) (k : String) :
    (∀ v, (k, v) ∈ M → k ≠ "metadataContainer" → (mergeLoop D M).1 k = some v) ∧
    ((k ∉ M.keys ∨ k = "metadataContainer") → (mergeLoop D M).1 k = D k) ∧
    (mergeLoop D M).1 k =
      if k ∈ M.keys ∧ k ≠ "metadataContainer" then M.lookup k else D k := by
  have hm := mergeLoop_fst D M hnd k
  refine ⟨?_, ?_, hm⟩
  · intro v hv hne
    have hkey : k ∈ M.keys := List.mem_map_of_mem Prod.fst hv
    rw [hm, if_pos ⟨hkey, hne⟩]
    exact (lookup_eq_some_iff_mem M hnd k v).mpr hv
  · intro hk
    rw [hm, if_neg]
    rintro ⟨h1, h2⟩
    rcases hk with hk | hk
    · exact hk h1
    · exact h2 hk

/-- Witness for C10: on a name collision the placeholder's definition wins, and an
untouched name keeps the document's definition. -/
theorem merge_is_right_biased_union_witness :
    collidingMetadata.keys.Nodup ∧
    (mergeLoop exampleDocument.Definitions collidingMetadata).1 "Package" = some emptyStruct ∧
    (mergeLoop exampleDocument.Definitions collidingMetadata).1 "Document" =
      exampleDocument.Definitions "Document" :=
  ⟨by decide,
    (merge_is_right_biased_union exampleDocument.Definitions collidingMetadata (by decide)
      "Package").1 emptyStruct (by decide) (by decide),
    (merge_is_right_biased_union exampleDocument.Definitions collidingMetadata (by decide)
      "Document").2.1 (Or.inl (by decide))⟩

/-- C5: when the root document's own definitions do not contain `metadataContainer`, that
name is a key neither of the merged map nor of the `Definitions` of the assembled
document. -/
theorem container_not_in_assembled {α : Type} (documentSchema : Schema α)
    (metadataSchema : MapRange α)
    (hroot : documentSchema.Definitions "metadataContainer" = none) :
    (mergeLoop documentSchema.Definitions metadataSchema).1 "metadataContainer" = none ∧
    ∀ assembled, assemble documentSchema metadataSchema = .ok assembled →
      assembled.Definitions "metadataContainer" = none := by
  have hm : (mergeLoop documentSchema.Definitions metadataSchema).1 "metadataContainer" = none :=
    mergeLoop_container metadataSchema (documentSchema.Definitions, []) hroot
  refine ⟨hm, ?_⟩
  intro assembled h
  obtain ⟨package, properties, _, _, hdefs⟩ :=
    assemble_definitions documentSchema assembled metadataSchema h
  rw [hdefs]
  have hne : ¬ "metadataContainer" = "Package" := by decide
  simp only [Definitions.set, hne, if_false]
  exact hm

/-- Witness for C5: the example document is assembled, without the placeholder's name. -/
theorem container_not_in_assembled_witness :
    exampleDocument.Definitions "metadataContainer" = none ∧
    (∃ assembled, assemble exampleDocument exampleMetadata = .ok assembled) ∧
    (mergeLoop exampleDocument.Definitions exampleMetadata).1 "metadataContainer" = none ∧
    ∀ assembled, assemble exampleDocument exampleMetadata = .ok assembled →
      assembled.Definitions "metadataContainer" = none :=
  ⟨by decide, ⟨_, rfl⟩,
    container_not_in_assembled exampleDocument exampleMetadata (by decide)⟩

/-- C6: two iteration orders of the same entries give the same alternative list, the same
merged `Definitions` map and the same assembled document. -/
theorem iteration_order_irrelevant {α : Type} (documentSchema : Schema α)
    (es1 es2 : MapRange α) (hnd : es1.keys.Nodup) (hperm : es1.Perm es2) :
    anyOf documentSchema.Definitions es1 = anyOf documentSchema.Definitions es2 ∧
    (mergeLoop documentSchema.Definitions es1).1 = (mergeLoop documentSchema.Definitions es2).1 ∧
    assemble documentSchema es1 = assemble documentSchema es2 := by
  have hnd2 : es2.keys.Nodup := (hperm.map Prod.fst).nodup_iff.mp hnd
  have hany : anyOf documentSchema.Definitions es1 = anyOf documentSchema.Definitions es2 := by
    have hkeys : (es1.keys.filter selected).Perm (es2.keys.filter selected) :=
      (hperm.map Prod.fst).filter selected
    rw [anyOf_eq, anyOf_eq, sortStrings_eq_of_perm hkeys]
  have hdefs : (mergeLoop documentSchema.Definitions es1).1 =
      (mergeLoop documentSchema.Definitions es2).1 := by
    funext k
    rw [mergeLoop_fst _ es1 hnd, mergeLoop_fst _ es2 hnd2, lookup_perm es1 es2 hnd hperm k]
    have hmem : k ∈ es1.keys ↔ k ∈ es2.keys := (hperm.map Prod.fst).mem_iff
    simp only [hmem]
  refine ⟨hany, hdefs, ?_⟩
  unfold assemble
  simp only [hany, hdefs]

/-- Witness for C6: the example definitions in two iteration orders. -/
theorem iteration_order_irrelevant_witness :
    exampleMetadata.keys.Nodup ∧ exampleMetadata.Perm exampleMetadataReordered ∧
    anyOf exampleDocument.Definitions exampleMetadata =
      anyOf exampleDocument.Definitions exampleMetadataReordered ∧
    (mergeLoop exampleDocument.Definitions exampleMetadata).1 =
      (mergeLoop exampleDocument.Definitions exampleMetadataReordered).1 ∧
    assemble exampleDocument exampleMetadata =
      assemble exampleDocument exampleMetadataReordered :=
  ⟨by decide, by decide,
    iteration_order_irrelevant exampleDocument exampleMetadata exampleMetadataReordered
      (by decide) (by decide)⟩

/-! ## The reconcile step -/

theorem reconcile_existing (faults : Faults) (name : String) (newSchemaBuffer : Bytes)
    (fs : FileSystem) (content : Bytes) (h : fs name = some content) :
    (reconcile faults name newSchemaBuffer fs).fs = fs ∧
    ∀ c ∈ (reconcile faults name newSchemaBuffer fs).calls, c.writes = false := by
  unfold reconcile Stat Open ReadAll
  cases hs : faults.statErr <;> cases ho : faults.openErr <;> cases hr : faults.readErr <;>
    by_cases hb : content = newSchemaBuffer <;>
    simp [h, hb, SysCall.writes]

theorem reconcile_noFaults_existing (name : String) (newSchemaBuffer : Bytes)
    (fs : FileSystem) (content : Bytes) (h : fs name = some content) :
    reconcile noFaults name newSchemaBuffer fs =
      ⟨.ok (if content = newSchemaBuffer then 0 else 1), fs,
        [.stat name, .openFile name, .readAll name]⟩ := by
  unfold reconcile Stat Open ReadAll
  by_cases hb : content = newSchemaBuffer <;> simp [h, hb, noFaults]

theorem reconcile_absent (faults : Faults) (name : String) (newSchemaBuffer : Bytes)
    (fs : FileSystem) (h : fs name = none) (hstat : faults.statErr = false)
    (hcreate : faults.createErr = false) (hwrite : faults.writeErr = none) :
    reconcile faults name newSchemaBuffer fs =
      ⟨.ok 0, fun p => if p = name then some newSchemaBuffer else fs p,
        [.stat name, .create name, .write name newSchemaBuffer]⟩ := by
  unfold reconcile Stat Create Write
  simp only [h, hstat, hcreate, hwrite]
  simp
  funext p
  by_cases hp : p = name <;> simp [hp]

theorem staleDisk_refused :
    (reconcile noFaults (filename "1.0.0") [123, 10, 125, 10] staleDisk).result = .ok 1 ∧
    (reconcile noFaults (filename "1.0.0") [123, 10, 125, 10] staleDisk).calls =
      [.stat "schema-1.0.0.json", .openFile "schema-1.0.0.json",
       .readAll "schema-1.0.0.json"] ∧
    (reconcile noFaults (filename "1.0.0") [123, 10, 125, 10] staleDisk).fs
      "schema-1.0.0.json" = some [123, 125, 10] :=
  ⟨rfl, rfl, rfl⟩

theorem staleDisk_same_bytes :
    (reconcile noFaults (filename "1.0.0") [123, 125, 10] staleDisk).result = .ok 0 ∧
    (reconcile noFaults (filename "1.0.0") [123, 125, 10] staleDisk).fs
      "schema-1.0.0.json" = some [123, 125, 10] :=
  ⟨rfl, rfl⟩

theorem emptyDisk_written :
    (reconcile noFaults (filename "1.0.0") [123, 125, 10] emptyDisk).result = .ok 0 ∧
    (reconcile noFaults (filename "1.0.0") [123, 125, 10] emptyDisk).calls =
      [.stat "schema-1.0.0.json", .create "schema-1.0.0.json",
       .write "schema-1.0.0.json" [123, 125, 10]] ∧
    (reconcile noFaults (filename "1.0.0") [123, 125, 10] emptyDisk).fs
      "schema-1.0.0.json" = some [123, 125, 10] ∧
    (reconcile noFaults (filename "1.0.0") [123, 125, 10] emptyDisk).fs "README.md" =
      some [35, 32] :=
  ⟨rfl, rfl, rfl, rfl⟩

theorem emptyDisk_failed_write :
    (reconcile ⟨false, false, false, false, some 1⟩ (filename "1.0.0") [123, 125, 10]
      emptyDisk).result = .error .writeFile ∧
    (reconcile ⟨false, false, false, false, some 1⟩ (filename "1.0.0") [123, 125, 10]
      emptyDisk).fs "schema-1.0.0.json" = some [123] :=
  ⟨rfl, rfl⟩

/-- C3: a file that exists at the target path has the same content after the reconcile
step as before, whether its bytes equal the buffer or not and whichever system calls fail;
the step leaves the whole file system as it was and makes no creating or writing call. -/
theorem existing_artifact_untouched (faults : Faults) (name : String)
    (newSchemaBuffer : Bytes) (fs : FileSystem) (content : Bytes)
    (h : fs name = some content) :
    (reconcile faults name newSchemaBuffer fs).fs name = some content ∧
    (reconcile faults name newSchemaBuffer fs).fs = fs ∧
    ∀ c ∈ (reconcile faults name newSchemaBuffer fs).calls, c.writes = false := by
  have hkeep := reconcile_existing faults name newSchemaBuffer fs content h
  refine ⟨?_, hkeep.1, hkeep.2⟩
  rw [hkeep.1]
  exact h

/-- Witness for C3: regenerating against a stale artifact. -/
theorem existing_artifact_untouched_witness :
    staleDisk (filename "1.0.0") = some [123, 125, 10] ∧
    (reconcile noFaults (filename "1.0.0") [123, 10, 125, 10] staleDisk).fs
      (filename "1.0.0") = some [123, 125, 10] ∧
    (reconcile noFaults (filename "1.0.0") [123, 10, 125, 10] staleDisk).fs = staleDisk ∧
    ∀ c ∈ (reconcile noFaults (filename "1.0.0") [123, 10, 125, 10] staleDisk).calls,
      c.writes = false :=
  ⟨by decide,
    existing_artifact_untouched noFaults (filename "1.0.0") [123, 10, 125, 10] staleDisk
      [123, 125, 10] (by decide)⟩

/-- C4: when no system call fails, the reconcile step exits with code 1 exactly when a file
exists at the target path with bytes different from the buffer, and with code 0 in every
other case. -/
theorem exit_code_one_iff_differs (name : String) (newSchemaBuffer : Bytes)
    (fs : FileSystem) :
    ((reconcile noFaults name newSchemaBuffer fs).result = .ok 1 ↔
      ∃ content, fs name = some content ∧ content ≠ newSchemaBuffer) ∧
    ((¬ ∃ content, fs name = some content ∧ content ≠ newSchemaBuffer) →
      (reconcile noFaults name newSchemaBuffer fs).result = .ok 0) := by
  cases h : fs name with
  | none =>
    rw [reconcile_absent noFaults name newSchemaBuffer fs h rfl rfl rfl]
    simp
  | some content =>
    rw [reconcile_noFaults_existing name newSchemaBuffer fs content h]
    by_cases hb : content = newSchemaBuffer <;> simp [hb]

/-- C8: first run.  With no file at the target path, `os.Stat` reporting so, and the create
and the write succeeding, the step exits with code 0, the target file holds exactly the
buffer, and every other path is unchanged. -/
theorem first_run_writes_buffer (faults : Faults) (name : String) (newSchemaBuffer : Bytes)
    (fs : FileSystem) (habsent : fs name = none) (hstat : faults.statErr = false)
    (hcreate : faults.createErr = false) (hwrite : faults.writeErr = none) :
    (reconcile faults name newSchemaBuffer fs).result = .ok 0 ∧
    (reconcile faults name newSchemaBuffer fs).fs name = some newSchemaBuffer ∧
    ∀ p, p ≠ name → (reconcile faults name newSchemaBuffer fs).fs p = fs p := by
  rw [reconcile_absent faults name newSchemaBuffer fs habsent hstat hcreate hwrite]
  refine ⟨rfl, by simp, ?_⟩
  intro p hp
  simp [hp]

/-- Witness for C8: a first run next to an unrelated file, with failing reads. -/
theorem first_run_writes_buffer_witness :
    emptyDisk (filename "1.0.0") = none ∧
    (reconcile ⟨false, true, true, false, none⟩ (filename "1.0.0") [123, 125, 10]
      emptyDisk).result = .ok 0 ∧
    (reconcile ⟨false, true, true, false, none⟩ (filename "1.0.0") [123, 125, 10]
      emptyDisk).fs (filename "1.0.0") = some [123, 125, 10] ∧
    ∀ p, p ≠ filename "1.0.0" →
      (reconcile ⟨false, true, true, false, none⟩ (filename "1.0.0") [123, 125, 10]
        emptyDisk).fs p = emptyDisk p :=
  ⟨by decide,
    first_run_writes_buffer ⟨false, true, true, false, none⟩ (filename "1.0.0")
      [123, 125, 10] emptyDisk (by decide) rfl rfl rfl⟩

/-- C7: idempotence.  From a state with no artifact at the target path and with no failing
system call, the first run exits 0 and writes the buffer; the second run with the same
buffer exits 0, makes no creating or writing call, and leaves the file system equal to the
state after the first run, the artifact being the buffer in both. -/
theorem second_run_is_noop (name : String) (newSchemaBuffer : Bytes) (fs : FileSystem)
    (habsent : fs name = none) :
    (reconcile noFaults name newSchemaBuffer fs).result = .ok 0 ∧
    (reconcile noFaults name newSchemaBuffer fs).fs name = some newSchemaBuffer ∧
    (reconcile noFaults name newSchemaBuffer
      (reconcile noFaults name newSchemaBuffer fs).fs).result = .ok 0 ∧
    (∀ c ∈ (reconcile noFaults name newSchemaBuffer
      (reconcile noFaults name newSchemaBuffer fs).fs).calls, c.writes = false) ∧
    (reconcile noFaults name newSchemaBuffer
      (reconcile noFaults name newSchemaBuffer fs).fs).fs =
      (reconcile noFaults name newSchemaBuffer fs).fs ∧
    (reconcile noFaults name newSchemaBuffer
      (reconcile noFaults name newSchemaBuffer fs).fs).fs name = some newSchemaBuffer := by
  have h1 := reconcile_absent noFaults name newSchemaBuffer fs habsent rfl rfl rfl
  have hfile : (reconcile noFaults name newSchemaBuffer fs).fs name = some newSchemaBuffer := by
    rw [h1]
    simp
  have h2 := reconcile_noFaults_existing name newSchemaBuffer
    (reconcile noFaults name newSchemaBuffer fs).fs newSchemaBuffer hfile
  refine ⟨by rw [h1], hfile, by rw [h2]; simp, ?_, by rw [h2], by rw [h2]; exact hfile⟩
  rw [h2]
  intro c hc
  simp only [List.mem_cons, List.mem_singleton, List.not_mem_nil, or_false] at hc
  rcases hc with rfl | rfl | rfl <;> rfl

/-- Witness for C7: two runs from a disk without the artifact. -/
theorem second_run_is_noop_witness :
    emptyDisk (filename "1.0.0") = none ∧
    (reconcile noFaults (filename "1.0.0") [123, 125, 10]
      (reconcile noFaults (filename "1.0.0") [123, 125, 10] emptyDisk).fs).result = .ok 0 ∧
    (reconcile noFaults (filename "1.0.0") [123, 125, 10]
      (reconcile noFaults (filename "1.0.0") [123, 125, 10] emptyDisk).fs).fs =
      (reconcile noFaults (filename "1.0.0") [123, 125, 10] emptyDisk).fs :=
  ⟨by decide,
    (second_run_is_noop (filename "1.0.0") [123, 125, 10] emptyDisk (by decide)).2.2.1,
    (second_run_is_noop (filename "1.0.0") [123, 125, 10] emptyDisk (by decide)).2.2.2.2.1⟩

/-! ## The missing `Package` definition -/

/-- C9: when the merged map has no `Package` entry, `main` panics at the rewrite: the
result is an error, neither exit code 0 nor exit code 1; the file system is unchanged and
no system call was made. -/
theorem missing_package_is_fatal {α : Type} (JSONSchemaVersion : String)
    (encode : Schema α → Option Bytes) (faults : Faults) (metadataSchema : MapRange α)
    (documentSchema : Schema α) (fs : FileSystem)
    (h : (mergeLoop documentSchema.Definitions metadataSchema).1 "Package" = none) :
    (main JSONSchemaVersion encode faults metadataSchema documentSchema fs).result =
      .error .nilDereference ∧
    (main JSONSchemaVersion encode faults metadataSchema documentSchema fs).result ≠ .ok 0 ∧
    (main JSONSchemaVersion encode faults metadataSchema documentSchema fs).result ≠ .ok 1 ∧
    (main JSONSchemaVersion encode faults metadataSchema documentSchema fs).fs = fs ∧
    (main JSONSchemaVersion encode faults metadataSchema documentSchema fs).calls = [] := by
  have ha : assemble documentSchema metadataSchema = .error .nilDereference := by
    simp only [assemble, h]
  simp [main, ha]

/-- Witness for C9: the drifted document, over a disk holding a stale artifact. -/
theorem missing_package_is_fatal_witness :
    (mergeLoop driftedDocument.Definitions exampleMetadata).1 "Package" = none ∧
    (main "1.0.0" (fun _ => some [123, 125, 10]) noFaults exampleMetadata driftedDocument
      staleDisk).result = .error .nilDereference ∧
    (main "1.0.0" (fun _ => some [123, 125, 10]) noFaults exampleMetadata driftedDocument
      staleDisk).fs = staleDisk ∧
    (main "1.0.0" (fun _ => some [123, 125, 10]) noFaults exampleMetadata driftedDocument
      staleDisk).calls = [] :=
  ⟨by decide,
    (missing_package_is_fatal "1.0.0" (fun _ => some [123, 125, 10]) noFaults exampleMetadata
      driftedDocument staleDisk (by decide)).1,
    (missing_package_is_fatal "1.0.0" (fun _ => some [123, 125, 10]) noFaults exampleMetadata
      driftedDocument staleDisk (by decide)).2.2.2⟩

end Generate
